import Mathlib

/-!
Verification of the C64 BASIC tokenizer / PRG encoder of this repository.

The repository contains two independent implementations of the same
pipeline:

* `src/basic_tokenizer.py` — `tokenize_basic_line` and `basic_to_prg`,
  embedded below in namespace `BasicTokenizer`;
* `src/build_and_deploy.py` — `tokenize_line` and `basic_to_prg`,
  embedded below in namespace `BuildAndDeploy`.

A text line is modelled as a `List Nat` of character codes (the sources
read files with `encoding='latin-1'`, so every byte 0–255 becomes the
Unicode codepoint of the same value).  The Python character predicates
`str.isspace`, `str.isalnum`, `str.isdigit` and the uppercase map
`str.upper` are reproduced exactly on the latin-1 codepoint range.
`struct.pack('<H', x)` is fallible in Python (it raises for `x` outside
0..65535), so the encoders return `Except String (List Nat)`.
-/

/-- `str.isspace` / regex `\s` on latin-1 codepoints: HT..CR, space,
FS..US (0x1c–0x1f), NEL (0x85), NBSP (0xa0). -/
def pyIsSpace (c : Nat) : Bool :=
  (9 ≤ c && c ≤ 13) || c = 32 || (28 ≤ c && c ≤ 31) || c = 133 || c = 160

/-- Regex `\d`: the ASCII decimal digits (the only Unicode `Nd`
codepoints in the latin-1 range). -/
def isDigitAscii (c : Nat) : Bool := 48 ≤ c && c ≤ 57

/-- `str.isdigit` on latin-1 codepoints: ASCII digits plus the
superscripts ¹ ² ³ (0xb9, 0xb2, 0xb3), which have the Digit property. -/
def pyIsDigit (c : Nat) : Bool :=
  isDigitAscii c || c = 178 || c = 179 || c = 185

/-- `str.isalnum` on latin-1 codepoints: ASCII digits and letters, plus
ª ² ³ µ ¹ º ¼ ½ ¾ and the accented letter blocks À–Ö, Ø–ö, ø–ÿ
(× 0xd7 and ÷ 0xf7 excluded). -/
def pyIsAlnum (c : Nat) : Bool :=
  (48 ≤ c && c ≤ 57) || (65 ≤ c && c ≤ 90) || (97 ≤ c && c ≤ 122) ||
  c = 170 || c = 178 || c = 179 || c = 181 || c = 185 || c = 186 ||
  c = 188 || c = 189 || c = 190 ||
  (192 ≤ c && c ≤ 214) || (216 ≤ c && c ≤ 246) || (248 ≤ c && c ≤ 255)

/-- `str.upper` of one latin-1 codepoint.  Lowercase ASCII and the
accented lowercase block map down by 32; ß expands to SS; µ and ÿ map
out of latin-1 (Μ U+039C, Ÿ U+0178); everything else is unchanged. -/
def pyUpperChar (c : Nat) : List Nat :=
  if 97 ≤ c && c ≤ 122 then [c - 32]
  else if c = 181 then [924]
  else if c = 223 then [83, 83]
  else if c = 255 then [376]
  else if 224 ≤ c && c ≤ 254 && c ≠ 247 then [c - 32]
  else [c]

/-- `content[i:].upper().startswith(keyword)`: the keyword's codes are a
prefix of the uppercased suffix. -/
def startsWithUpper (s kw : List Nat) : Bool :=
  kw.isPrefixOf (s.flatMap pyUpperChar)

/-- `str.strip()`: remove leading and trailing whitespace. -/
def pyStrip (s : List Nat) : List Nat :=
  ((s.dropWhile pyIsSpace).reverse.dropWhile pyIsSpace).reverse

/-- `line.rstrip('\r\n')`: remove trailing CR/LF characters. -/
def rstripCRLF (s : List Nat) : List Nat :=
  (s.reverse.dropWhile (fun c => c = 13 || c = 10)).reverse

/-- `int(...)` of a nonempty ASCII-digit string. -/
def natOfDigits (ds : List Nat) : Nat :=
  ds.foldl (fun a c => 10 * a + (c - 48)) 0

/-- A character emitted untokenized: raw code below 128, `?` (63)
otherwise. -/
def rawCode (c : Nat) : Nat := if c < 128 then c else 63

/-- `struct.pack('<H', x)`: two bytes little-endian, raising for values
above 65535 (the Python `struct.error`). -/
def packU16 (x : Nat) : Except String (List Nat) :=
  if x ≤ 65535 then .ok [x % 256, x / 256]
  else .error "ushort format requires 0 <= number <= 65535"

/-- The shared token table of both sources, already arranged in the
order Python's `sorted(TOKENS.keys(), key=len, reverse=True)` visits it:
descending spelling length, insertion order among equal lengths
(Python's sort is stable and `reverse=True` keeps equal keys in
order). -/
def sortedTokens : List (List Nat × Nat) := [
  ([82, 69, 83, 84, 79, 82, 69], 140),  -- RESTORE
  ([73, 78, 80, 85, 84, 35], 132),  -- INPUT#
  ([82, 69, 84, 85, 82, 78], 142),  -- RETURN
  ([86, 69, 82, 73, 70, 89], 149),  -- VERIFY
  ([80, 82, 73, 78, 84, 35], 152),  -- PRINT#
  ([82, 73, 71, 72, 84, 36], 201),  -- RIGHT$
  ([73, 78, 80, 85, 84], 133),  -- INPUT
  ([71, 79, 83, 85, 66], 141),  -- GOSUB
  ([80, 82, 73, 78, 84], 153),  -- PRINT
  ([67, 76, 79, 83, 69], 160),  -- CLOSE
  ([76, 69, 70, 84, 36], 200),  -- LEFT$
  ([78, 69, 88, 84], 130),  -- NEXT
  ([68, 65, 84, 65], 131),  -- DATA
  ([82, 69, 65, 68], 135),  -- READ
  ([71, 79, 84, 79], 137),  -- GOTO
  ([83, 84, 79, 80], 144),  -- STOP
  ([87, 65, 73, 84], 146),  -- WAIT
  ([76, 79, 65, 68], 147),  -- LOAD
  ([83, 65, 86, 69], 148),  -- SAVE
  ([80, 79, 75, 69], 151),  -- POKE
  ([67, 79, 78, 84], 154),  -- CONT
  ([76, 73, 83, 84], 155),  -- LIST
  ([79, 80, 69, 78], 159),  -- OPEN
  ([84, 65, 66, 40], 163),  -- TAB(
  ([83, 80, 67, 40], 166),  -- SPC(
  ([84, 72, 69, 78], 167),  -- THEN
  ([83, 84, 69, 80], 169),  -- STEP
  ([80, 69, 69, 75], 194),  -- PEEK
  ([83, 84, 82, 36], 196),  -- STR$
  ([67, 72, 82, 36], 199),  -- CHR$
  ([77, 73, 68, 36], 202),  -- MID$
  ([69, 78, 68], 128),  -- END
  ([70, 79, 82], 129),  -- FOR
  ([68, 73, 77], 134),  -- DIM
  ([76, 69, 84], 136),  -- LET
  ([82, 85, 78], 138),  -- RUN
  ([82, 69, 77], 143),  -- REM
  ([68, 69, 70], 150),  -- DEF
  ([67, 76, 82], 156),  -- CLR
  ([67, 77, 68], 157),  -- CMD
  ([83, 89, 83], 158),  -- SYS
  ([71, 69, 84], 161),  -- GET
  ([78, 69, 87], 162),  -- NEW
  ([78, 79, 84], 168),  -- NOT
  ([65, 78, 68], 175),  -- AND
  ([83, 71, 78], 180),  -- SGN
  ([73, 78, 84], 181),  -- INT
  ([65, 66, 83], 182),  -- ABS
  ([85, 83, 82], 183),  -- USR
  ([70, 82, 69], 184),  -- FRE
  ([80, 79, 83], 185),  -- POS
  ([83, 81, 82], 186),  -- SQR
  ([82, 78, 68], 187),  -- RND
  ([76, 79, 71], 188),  -- LOG
  ([69, 88, 80], 189),  -- EXP
  ([67, 79, 83], 190),  -- COS
  ([83, 73, 78], 191),  -- SIN
  ([84, 65, 78], 192),  -- TAN
  ([65, 84, 78], 193),  -- ATN
  ([76, 69, 78], 195),  -- LEN
  ([86, 65, 76], 197),  -- VAL
  ([65, 83, 67], 198),  -- ASC
  ([73, 70], 139),  -- IF
  ([79, 78], 145),  -- ON
  ([84, 79], 164),  -- TO
  ([70, 78], 165),  -- FN
  ([79, 82], 176),  -- OR
  ([43], 170),  -- +
  ([45], 171),  -- -
  ([42], 172),  -- *
  ([47], 173),  -- /
  ([94], 174),  -- ^
  ([62], 177),  -- >
  ([61], 178),  -- =
  ([60], 179)]  -- <

/-- The spelling of `PRINT#`. -/
def printHashK : List Nat := [80, 82, 73, 78, 84, 35]
/-- The spelling of `INPUT#`. -/
def inputHashK : List Nat := [73, 78, 80, 85, 84, 35]
/-- The spelling of `REM`. -/
def remK : List Nat := [82, 69, 77]
/-- The spelling of `LOAD`. -/
def loadK : List Nat := [76, 79, 65, 68]
/-- The spelling of `SAVE`. -/
def saveK : List Nat := [83, 65, 86, 69]
/-- The spelling of `VERIFY`. -/
def verifyK : List Nat := [86, 69, 82, 73, 70, 89]

/-- `keyword in '+-*/^>=<'` for a one-character keyword. -/
def isOpChar (c : Nat) : Bool :=
  c = 43 || c = 45 || c = 42 || c = 47 || c = 94 || c = 62 || c = 61 || c = 60

/-- `end_pos >= len(content) or not content[end_pos].isalnum()` with
`end_pos = i + n`. -/
def boundaryAfter (content : List Nat) (i n : Nat) : Bool :=
  decide (content.length ≤ i + n) || !pyIsAlnum (content.getD (i + n) 0)

/-- `i == 0 or not content[i - 1].isalnum()`. -/
def boundaryBefore (content : List Nat) (i : Nat) : Bool :=
  decide (i = 0) || !pyIsAlnum (content.getD (i - 1) 0)

/-- Every table spelling is nonempty (each scan step advances). -/
theorem sortedTokens_len_pos : ∀ kv ∈ sortedTokens, 0 < kv.1.length := by
  decide

namespace BasicTokenizer

/-- The match condition of the keyword loop of
`basic_tokenizer.tokenize_basic_line` (lines 73–97): the uppercased
remaining text must start with the spelling, then one-character
operators always match, `PRINT#`/`INPUT#` match unconditionally, and
any other multi-character keyword needs a non-alphanumeric (or absent)
character after the matched span. -/
def matchesAt (content : List Nat) (i : Nat) (kw : List Nat) : Bool :=
  startsWithUpper (content.drop i) kw &&
  (if kw.length == 1 && isOpChar (kw.headD 0) then true
   else if kw == printHashK || kw == inputHashK then true
   else if 1 < kw.length then boundaryAfter content i kw.length
   else false)

/-- The first table entry (in sorted order) matching at position `i`,
as found by the `for keyword in sorted(...)` loop. -/
def findMatch (content : List Nat) (i : Nat) : Option (List Nat × Nat) :=
  sortedTokens.find? fun kv => matchesAt content i kv.1

theorem findMatch_len_pos {content : List Nat} {i : Nat}
    {kv : List Nat × Nat} (h : findMatch content i = some kv) :
    0 < kv.1.length :=
  sortedTokens_len_pos kv (List.mem_of_find?_eq_some h)

/-- One structural layer per loop iteration of the scanning loop of
`tokenize_basic_line` (lines 48–105): a quote toggles `in_string` and
is emitted raw; inside a string or after `REM` characters pass through
raw (`?` for codes ≥ 128); otherwise the first matching keyword is
emitted as its byte code (entering `in_rem` when it is `REM`), and an
unmatched character is emitted raw.  The fuel argument only bounds the
iteration count; `content.length - i` fuel always suffices because
every table spelling is nonempty (`scan_eq` below recovers the
fuel-free unfolding). -/
def scanAux (content : List Nat) : Nat → Nat → Bool → Bool → List Nat
  | 0, _, _, _ => []
  | fuel + 1, i, inStr, inRem =>
    if i < content.length then
      let c := content.getD i 0
      if c = 34 then
        34 :: scanAux content fuel (i + 1) (!inStr) inRem
      else if inStr || inRem then
        rawCode c :: scanAux content fuel (i + 1) inStr inRem
      else
        match findMatch content i with
        | some kv =>
          kv.2 :: scanAux content fuel (i + kv.1.length) inStr (inRem || kv.1 == remK)
        | none => rawCode c :: scanAux content fuel (i + 1) inStr inRem
    else []

/-- The scanning loop from position `i` onward. -/
def scan (content : List Nat) (i : Nat) (inStr inRem : Bool) : List Nat :=
  scanAux content (content.length - i) i inStr inRem

/-- The result of `scanAux` does not depend on the fuel once the fuel
covers the remaining characters. -/
theorem scanAux_congr (content : List Nat) :
    ∀ f1 f2 i inStr inRem, content.length - i ≤ f1 → content.length - i ≤ f2 →
      scanAux content f1 i inStr inRem = scanAux content f2 i inStr inRem := by
  intro f1
  induction f1 with
  | zero =>
    intro f2 i inStr inRem h1 _
    cases f2 with
    | zero => rfl
    | succ f2 => simp only [scanAux]; rw [if_neg (by omega)]
  | succ f1 ih =>
    intro f2 i inStr inRem h1 h2
    cases f2 with
    | zero => simp only [scanAux]; rw [if_neg (by omega)]
    | succ f2 =>
      simp only [scanAux]
      by_cases hi : i < content.length
      · rw [if_pos hi, if_pos hi]
        by_cases hq : content.getD i 0 = 34
        · rw [if_pos hq, if_pos hq, ih f2 (i + 1) _ _ (by omega) (by omega)]
        · rw [if_neg hq, if_neg hq]
          by_cases hs : (inStr || inRem) = true
          · rw [if_pos hs, if_pos hs, ih f2 (i + 1) _ _ (by omega) (by omega)]
          · rw [if_neg hs, if_neg hs]
            cases hm : findMatch content i with
            | none => dsimp only; rw [ih f2 (i + 1) _ _ (by omega) (by omega)]
            | some kv =>
              have := findMatch_len_pos hm
              dsimp only
              rw [ih f2 (i + kv.1.length) _ _ (by omega) (by omega)]
      · rw [if_neg hi, if_neg hi]

/-- The fuel-free unfolding of one scanning step. -/
theorem scan_eq (content : List Nat) (i : Nat) (inStr inRem : Bool) :
    scan content i inStr inRem =
      if i < content.length then
        let c := content.getD i 0
        if c = 34 then
          34 :: scan content (i + 1) (!inStr) inRem
        else if inStr || inRem then
          rawCode c :: scan content (i + 1) inStr inRem
        else
          match findMatch content i with
          | some kv =>
            kv.2 :: scan content (i + kv.1.length) inStr (inRem || kv.1 == remK)
          | none => rawCode c :: scan content (i + 1) inStr inRem
      else [] := by
  by_cases hi : i < content.length
  · have hrem : content.length - i = (content.length - (i + 1)) + 1 := by omega
    rw [scan, hrem]
    simp only [scanAux, scan, if_pos hi]
    cases hm : findMatch content i with
    | none => rfl
    | some kv =>
      have := findMatch_len_pos hm
      dsimp only
      rw [scanAux_congr content (content.length - (i + 1))
            (content.length - (i + kv.1.length)) (i + kv.1.length) inStr
            (inRem || kv.1 == remK) (by omega) (by omega)]
  · rw [if_neg hi, scan]
    have : content.length - i = 0 := by omega
    rw [this]
    rfl

/-- The line-number split of `tokenize_basic_line` (lines 33–43):
`strip`, drop empty lines, then `re.match(r'^(\d+)\s*(.*)$', line)` —
a maximal ASCII-digit prefix, optional whitespace, and the rest as
content. -/
def parseLine (line : List Nat) : Option (Nat × List Nat) :=
  let s := pyStrip line
  match s with
  | [] => none
  | c :: _ =>
    if isDigitAscii c then
      some (natOfDigits (s.takeWhile isDigitAscii),
            (s.dropWhile isDigitAscii).dropWhile pyIsSpace)
    else none

/-- `basic_tokenizer.tokenize_basic_line`: split off the line number and
scan the content (starting outside strings and outside `REM`). -/
def tokenize_basic_line (line : List Nat) : Option (Nat × List Nat) :=
  match parseLine line with
  | none => none
  | some (n, content) => some (n, scan content 0 false false)

/-- The line loop of `basic_tokenizer.basic_to_prg` (lines 124–144):
each line is `rstrip('\r\n')`-ed, skipped when blank or when the
tokenizer drops it, and otherwise laid out as
`[0, 0] ++ pack(line_num) ++ tokens ++ [0]` with its absolute address
(`prev_line_addr` starts at `start_addr + 2` and advances by the
record's length).  `pack('<H', line_num)` can fail. -/
def buildRecords : List (List Nat) → Nat → Except String (List (Nat × List Nat))
  | [], _ => .ok []
  | l :: ls, addr =>
    let l2 := rstripCRLF l
    if pyStrip l2 = [] then buildRecords ls addr
    else
      match tokenize_basic_line l2 with
      | none => buildRecords ls addr
      | some (n, toks) =>
        match packU16 n with
        | .error e => .error e
        | .ok nb =>
          let data := [0, 0] ++ nb ++ toks ++ [0]
          match buildRecords ls (addr + data.length) with
          | .error e => .error e
          | .ok rest => .ok ((addr, data) :: rest)

/-- `current_data[0] = a & 0xFF; current_data[1] = (a >> 8) & 0xFF`. -/
def setLink (d : List Nat) (a : Nat) : List Nat :=
  a % 256 :: (a / 256) % 256 :: d.drop 2

/-- The link pass of `basic_to_prg` (lines 147–158): every record but
the last receives the stored address of its successor; the last
receives zero. -/
def patchLinks : List (Nat × List Nat) → List (List Nat)
  | [] => []
  | [(_, d)] => [setLink d 0]
  | (_, d) :: (a2, d2) :: rest => setLink d a2 :: patchLinks ((a2, d2) :: rest)

/-- `basic_tokenizer.basic_to_prg` (file I/O stripped): the packed load
address followed by every link-patched record in order. -/
def basic_to_prg (lines : List (List Nat)) (start_addr : Nat) :
    Except String (List Nat) :=
  match packU16 start_addr with
  | .error e => .error e
  | .ok header =>
    match buildRecords lines (start_addr + 2) with
    | .error e => .error e
    | .ok recs => .ok (header ++ (patchLinks recs).flatten)

end BasicTokenizer

namespace BuildAndDeploy

/-- The match condition of the keyword loop of
`build_and_deploy.tokenize_line` (lines 74–104): one-character entries
always match; `PRINT#`/`INPUT#` need the next character to exist and be
a digit; `LOAD`/`SAVE`/`VERIFY` need only a non-alphanumeric (or
absent) character before the match; every other multi-character keyword
needs non-alphanumeric (or absent) characters on both sides. -/
def matchesAt (content : List Nat) (i : Nat) (kw : List Nat) : Bool :=
  startsWithUpper (content.drop i) kw &&
  (if kw.length == 1 then true
   else if kw == printHashK || kw == inputHashK then
     decide (i + kw.length < content.length) &&
       pyIsDigit (content.getD (i + kw.length) 0)
   else if kw == loadK || kw == saveK || kw == verifyK then
     boundaryBefore content i
   else boundaryBefore content i && boundaryAfter content i kw.length)

/-- The first table entry (in sorted order) matching at position `i`. -/
def findMatch (content : List Nat) (i : Nat) : Option (List Nat × Nat) :=
  sortedTokens.find? fun kv => matchesAt content i kv.1

theorem findMatch_len_pos_bd {content : List Nat} {i : Nat}
    {kv : List Nat × Nat} (h : findMatch content i = some kv) :
    0 < kv.1.length :=
  sortedTokens_len_pos kv (List.mem_of_find?_eq_some h)

/-- One structural layer per loop iteration of the scanning loop of
`tokenize_line` (lines 53–112): a quote toggles `in_string` and is
emitted raw; inside a string characters pass through raw; otherwise
the first matching keyword is emitted as its byte code, and an
unmatched character is emitted raw.  There is no `REM` verbatim mode
in this implementation.  `content.length - i` fuel always suffices
(`scan_eq` below). -/
def scanAux (content : List Nat) : Nat → Nat → Bool → List Nat
  | 0, _, _ => []
  | fuel + 1, i, inStr =>
    if i < content.length then
      let c := content.getD i 0
      if c = 34 then
        34 :: scanAux content fuel (i + 1) (!inStr)
      else if inStr then
        rawCode c :: scanAux content fuel (i + 1) inStr
      else
        match findMatch content i with
        | some kv => kv.2 :: scanAux content fuel (i + kv.1.length) inStr
        | none => rawCode c :: scanAux content fuel (i + 1) inStr
    else []

/-- The scanning loop from position `i` onward. -/
def scan (content : List Nat) (i : Nat) (inStr : Bool) : List Nat :=
  scanAux content (content.length - i) i inStr

/-- The result of `scanAux` does not depend on the fuel once the fuel
covers the remaining characters. -/
theorem scanAux_congr_bd (content : List Nat) :
    ∀ f1 f2 i inStr, content.length - i ≤ f1 → content.length - i ≤ f2 →
      scanAux content f1 i inStr = scanAux content f2 i inStr := by
  intro f1
  induction f1 with
  | zero =>
    intro f2 i inStr h1 _
    cases f2 with
    | zero => rfl
    | succ f2 => simp only [scanAux]; rw [if_neg (by omega)]
  | succ f1 ih =>
    intro f2 i inStr h1 h2
    cases f2 with
    | zero => simp only [scanAux]; rw [if_neg (by omega)]
    | succ f2 =>
      simp only [scanAux]
      by_cases hi : i < content.length
      · rw [if_pos hi, if_pos hi]
        by_cases hq : content.getD i 0 = 34
        · rw [if_pos hq, if_pos hq, ih f2 (i + 1) _ (by omega) (by omega)]
        · rw [if_neg hq, if_neg hq]
          by_cases hs : inStr = true
          · rw [if_pos hs, if_pos hs, ih f2 (i + 1) _ (by omega) (by omega)]
          · rw [if_neg hs, if_neg hs]
            cases hm : findMatch content i with
            | none => dsimp only; rw [ih f2 (i + 1) _ (by omega) (by omega)]
            | some kv =>
              have := findMatch_len_pos_bd hm
              dsimp only
              rw [ih f2 (i + kv.1.length) _ (by omega) (by omega)]
      · rw [if_neg hi, if_neg hi]

/-- The fuel-free unfolding of one scanning step. -/
theorem scan_eq_bd (content : List Nat) (i : Nat) (inStr : Bool) :
    scan content i inStr =
      if i < content.length then
        let c := content.getD i 0
        if c = 34 then
          34 :: scan content (i + 1) (!inStr)
        else if inStr then
          rawCode c :: scan content (i + 1) inStr
        else
          match findMatch content i with
          | some kv => kv.2 :: scan content (i + kv.1.length) inStr
          | none => rawCode c :: scan content (i + 1) inStr
      else [] := by
  by_cases hi : i < content.length
  · have hrem : content.length - i = (content.length - (i + 1)) + 1 := by omega
    rw [scan, hrem]
    simp only [scanAux, scan, if_pos hi]
    cases hm : findMatch content i with
    | none => rfl
    | some kv =>
      have := findMatch_len_pos_bd hm
      dsimp only
      rw [scanAux_congr_bd content (content.length - (i + 1))
            (content.length - (i + kv.1.length)) (i + kv.1.length) inStr
            (by omega) (by omega)]
  · rw [if_neg hi, scan]
    have : content.length - i = 0 := by omega
    rw [this]
    rfl

/-- The line-number split of `tokenize_line` (lines 37–47): `strip`,
drop empty lines, then `re.match(r'^(\d+)\s+(.*)$', line)` — a maximal
ASCII-digit prefix, at least one whitespace character, and the rest as
content. -/
def parseLine (line : List Nat) : Option (Nat × List Nat) :=
  let s := pyStrip line
  match s with
  | [] => none
  | c :: _ =>
    if isDigitAscii c then
      match s.dropWhile isDigitAscii with
      | [] => none
      | d :: _ =>
        if pyIsSpace d then
          some (natOfDigits (s.takeWhile isDigitAscii),
                (s.dropWhile isDigitAscii).dropWhile pyIsSpace)
        else none
    else none

/-- `build_and_deploy.tokenize_line`: split off the line number and
scan the content (starting outside strings). -/
def tokenize_line (line : List Nat) : Option (Nat × List Nat) :=
  match parseLine line with
  | none => none
  | some (n, content) => some (n, scan content 0 false)

/-- The line loop of `build_and_deploy.basic_to_prg` (lines 123–134):
every line the tokenizer accepts becomes
`[0, 0] ++ pack(line_num) ++ tokens ++ [0]`; `pack('<H', line_num)`
can fail.  No explicit blank-line pre-filter exists here. -/
def buildRecords : List (List Nat) → Except String (List (List Nat))
  | [] => .ok []
  | l :: ls =>
    match tokenize_line l with
    | none => buildRecords ls
    | some (n, toks) =>
      match packU16 n with
      | .error e => .error e
      | .ok nb =>
        match buildRecords ls with
        | .error e => .error e
        | .ok rest => .ok (([0, 0] ++ nb ++ toks ++ [0]) :: rest)

/-- The address/link pass of `basic_to_prg` (lines 137–151):
`current_addr` starts at `start_addr + 2`; every record but the last
gets `current_addr + len(line_data)` poked into its first two bytes,
the last gets zero. -/
def patchLinks : List (List Nat) → Nat → List (List Nat)
  | [], _ => []
  | [d], _ => [BasicTokenizer.setLink d 0]
  | d :: rest, addr =>
    BasicTokenizer.setLink d (addr + d.length) :: patchLinks rest (addr + d.length)

/-- `build_and_deploy.basic_to_prg` (file I/O stripped): records are
built (and line numbers packed) first, then the load address is packed
and the link-patched records appended. -/
def basic_to_prg (lines : List (List Nat)) (start_addr : Nat) :
    Except String (List Nat) :=
  match buildRecords lines with
  | .error e => .error e
  | .ok recs =>
    match packU16 start_addr with
    | .error e => .error e
    | .ok header => .ok (header ++ (patchLinks recs (start_addr + 2)).flatten)

end BuildAndDeploy

/-- The value of a record's two-byte link field, low byte first. -/
def linkVal (d : List Nat) : Nat := d.getD 0 0 + 256 * d.getD 1 0

/-! ## Concrete inputs used by the claims -/

/-- The character codes of `10 PRINT "HELLO"`. -/
def helloLine : List Nat := [49, 48, 32, 80, 82, 73, 78, 84, 32, 34, 72, 69, 76, 76, 79, 34]

/-- The character codes of `10 GOTO100`. -/
def gotoLine : List Nat := [49, 48, 32, 71, 79, 84, 79, 49, 48, 48]

/-- The character codes of `10 XOR`. -/
def xorLine : List Nat := [49, 48, 32, 88, 79, 82]

/-- The character codes of `10 REM PRINT`. -/
def remLine : List Nat := [49, 48, 32, 82, 69, 77, 32, 80, 82, 73, 78, 84]

/-- The character codes of `10 PRINT#`. -/
def printHashLine : List Nat := [49, 48, 32, 80, 82, 73, 78, 84, 35]

/-- The character codes of `70000 A`. -/
def bigNumLine : List Nat := [55, 48, 48, 48, 48, 32, 65]

/-- C3 claims the `HELLO` record's token bytes are
`[0x99, 0x22, H, E, L, L, O, 0x22]` with nothing between the `PRINT`
token and the opening quote; the code also emits the raw space (0x20)
that separates `PRINT` from the string, so the produced byte sequence
differs from the claimed one. -/
theorem C3_counterexample :
    BasicTokenizer.tokenize_basic_line helloLine =
      some (10, [153, 32, 34, 72, 69, 76, 76, 79, 34]) ∧
    ([153, 32, 34, 72, 69, 76, 76, 79, 34] : List Nat) ≠
      [153, 34, 72, 69, 76, 76, 79, 34] := by
  constructor
  · rfl
  · decide

/-- C3 (amended): encoding `10 PRINT "HELLO"` at base 0x0801 yields the
load address `[0x01, 0x08]`, a single record with link 0x0000, line
number 10 low byte first, token bytes
`[0x99, 0x20, 0x22, H, E, L, L, O, 0x22]` (the separating space is
kept as the raw byte 0x20), and a zero terminator. -/
theorem C3_hello_prg :
    BasicTokenizer.basic_to_prg [helloLine] 2049 =
      .ok [1, 8, 0, 0, 10, 0, 153, 32, 34, 72, 69, 76, 76, 79, 34, 0] := by
  rfl

/-- C4 claims `GOTO100` still tokenizes the keyword `GOTO` (0x89); in
the code a digit after the keyword fails the `isalnum` word-boundary
check, so every character is emitted raw and no 0x89 byte appears. -/
theorem C4_counterexample :
    BasicTokenizer.tokenize_basic_line gotoLine =
      some (10, [71, 79, 84, 79, 49, 48, 48]) ∧
    (137 : Nat) ∉ ([71, 79, 84, 79, 49, 48, 48] : List Nat) := by
  constructor
  · rfl
  · decide

/-- C4 (amended): in both implementations a keyword immediately
followed by a decimal digit fails the trailing word-boundary check
(digits are alphanumeric), so `10 GOTO100` is emitted entirely as raw
character codes and the byte 0x89 is never produced. -/
theorem C4_goto_digit :
    BasicTokenizer.tokenize_basic_line gotoLine =
      some (10, [71, 79, 84, 79, 49, 48, 48]) ∧
    BuildAndDeploy.tokenize_line gotoLine =
      some (10, [71, 79, 84, 79, 49, 48, 48]) := by
  constructor
  · rfl
  · rfl

/-- C2 claims no input can make tokenization/encoding fail; a line
number above 65535 makes `struct.pack('<H', line_num)` raise, so
`70000 A` drives both encoders into an error. -/
theorem C2_counterexample :
    BasicTokenizer.basic_to_prg [bigNumLine] 2049 =
      .error "ushort format requires 0 <= number <= 65535" ∧
    BuildAndDeploy.basic_to_prg [bigNumLine] 2049 =
      .error "ushort format requires 0 <= number <= 65535" := by
  constructor
  · rfl
  · rfl

/-- C5 claims an ordinary keyword is matched only between
non-alphanumeric neighbours, so `OR` would never be tokenized inside
`XOR`; `basic_tokenizer` checks only the trailing boundary, so
`10 XOR` tokenizes as raw `X` followed by the `OR` byte code 0xB0. -/
theorem C5_counterexample :
    BasicTokenizer.tokenize_basic_line xorLine = some (10, [88, 176]) ∧
    (176 : Nat) ∈ ([88, 176] : List Nat) := by
  constructor
  · rfl
  · decide

/-- C6 claims that after `REM` no further keyword byte codes appear on
the line; `build_and_deploy.tokenize_line` has no verbatim mode, so
`10 REM PRINT` emits the `PRINT` code 0x99 after the `REM` code 0x8F
instead of the raw codes of `PRINT`. -/
theorem C6_counterexample :
    BuildAndDeploy.tokenize_line remLine = some (10, [143, 32, 153]) ∧
    ([143, 32, 153] : List Nat) ≠ [143, 32, 80, 82, 73, 78, 84] := by
  constructor
  · rfl
  · decide

/-- C7 claims `PRINT#` matches whenever the remaining text starts with
its spelling, with no trailing condition; `build_and_deploy` demands a
digit after the `#`, so `10 PRINT#` (end of line after `#`) emits the
`PRINT` code 0x99 and a raw `#` instead of the `PRINT#` code 0x98. -/
theorem C7_counterexample :
    BuildAndDeploy.tokenize_line printHashLine = some (10, [153, 35]) ∧
    ([153, 35] : List Nat) ≠ [152] := by
  constructor
  · rfl
  · decide

/-- C8 claims a line with empty content after its line number yields no
record; `basic_tokenizer`'s pattern `^(\d+)\s*(.*)$` accepts the bare
line `10` and yields a record with an empty token list. -/
theorem C8_counterexample :
    BasicTokenizer.tokenize_basic_line [49, 48] = some (10, []) ∧
    some ((10 : Nat), ([] : List Nat)) ≠ none := by
  constructor
  · rfl
  · decide

/-- C1 claims every non-final link field equals the absolute address of
the next record.  At base address 65530 the two lines `10 A` and `20 B`
place the second record at absolute address 65538, but the link bytes
of the first patched record hold 65538 & 0xFFFF = 2. -/
theorem C1_counterexample :
    BasicTokenizer.buildRecords [[49, 48, 32, 65], [50, 48, 32, 66]] (65530 + 2) =
      .ok [(65532, [0, 0, 10, 0, 65, 0]), (65538, [0, 0, 20, 0, 66, 0])] ∧
    BasicTokenizer.patchLinks
        [(65532, [0, 0, 10, 0, 65, 0]), (65538, [0, 0, 20, 0, 66, 0])] =
      [[2, 0, 10, 0, 65, 0], [0, 0, 20, 0, 66, 0]] ∧
    linkVal [2, 0, 10, 0, 65, 0] = 2 ∧
    65532 + ([0, 0, 10, 0, 65, 0] : List Nat).length = 65538 ∧
    (2 : Nat) ≠ 65538 := by
  refine ⟨rfl, rfl, rfl, rfl, ?_⟩
  decide

/-! ## Totality of the encoders for 16-bit line numbers (C2) -/

/-- An accepted line's number fits in 16 bits (vacuous for dropped
lines). -/
def lineNumOK (o : Option (Nat × List Nat)) : Bool :=
  match o with
  | none => true
  | some p => decide (p.1 ≤ 65535)

theorem BasicTokenizer.buildRecords_ok (ls : List (List Nat)) :
    (∀ l ∈ ls, lineNumOK (tokenize_basic_line (rstripCRLF l)) = true) →
    ∀ a, ∃ recs, buildRecords ls a = .ok recs := by
  induction ls with
  | nil => exact fun _ _ => ⟨[], rfl⟩
  | cons l ls ih =>
    intro h a
    have hrest := fun l' hm => h l' (List.mem_cons_of_mem _ hm)
    have hl := h l (List.mem_cons_self l ls)
    simp only [buildRecords]
    by_cases hstrip : pyStrip (rstripCRLF l) = []
    · rw [if_pos hstrip]; exact ih hrest a
    · rw [if_neg hstrip]
      cases ht : tokenize_basic_line (rstripCRLF l) with
      | none => exact ih hrest a
      | some p =>
        obtain ⟨n, toks⟩ := p
        rw [ht] at hl
        have hn : n ≤ 65535 := by simpa [lineNumOK] using hl
        obtain ⟨recs, hrecs⟩ :=
          ih hrest (a + ([0, 0] ++ [n % 256, n / 256] ++ toks ++ [0]).length)
        refine ⟨(a, [0, 0] ++ [n % 256, n / 256] ++ toks ++ [0]) :: recs, ?_⟩
        simp only [packU16, if_pos hn, hrecs]

theorem BuildAndDeploy.buildRecords_ok_bd (ls : List (List Nat)) :
    (∀ l ∈ ls, lineNumOK (tokenize_line l) = true) →
    ∃ recs, buildRecords ls = .ok recs := by
  induction ls with
  | nil => exact fun _ => ⟨[], rfl⟩
  | cons l ls ih =>
    intro h
    have hrest := fun l' hm => h l' (List.mem_cons_of_mem _ hm)
    have hl := h l (List.mem_cons_self l ls)
    simp only [buildRecords]
    cases ht : tokenize_line l with
    | none => exact ih hrest
    | some p =>
      obtain ⟨n, toks⟩ := p
      rw [ht] at hl
      have hn : n ≤ 65535 := by simpa [lineNumOK] using hl
      obtain ⟨recs, hrecs⟩ := ih hrest
      exact ⟨([0, 0] ++ [n % 256, n / 256] ++ toks ++ [0]) :: recs,
        by simp only [packU16, if_pos hn, hrecs]⟩

/-- C2 (amended): tokenization never fails, and encoding runs to
completion on every input whose accepted lines carry 16-bit line
numbers (and whose base address fits in 16 bits); a leading decimal
number above 65535 on an accepted line instead makes
`struct.pack('<H', line_num)` raise in both implementations. -/
theorem C2_total_for_16bit_line_numbers (lines : List (List Nat))
    (start_addr : Nat) (haddr : start_addr ≤ 65535) :
    ((∀ l ∈ lines,
        lineNumOK (BasicTokenizer.tokenize_basic_line (rstripCRLF l)) = true) →
      ∃ buf, BasicTokenizer.basic_to_prg lines start_addr = .ok buf) ∧
    ((∀ l ∈ lines, lineNumOK (BuildAndDeploy.tokenize_line l) = true) →
      ∃ buf, BuildAndDeploy.basic_to_prg lines start_addr = .ok buf) := by
  constructor
  · intro h
    obtain ⟨recs, hrecs⟩ :=
      BasicTokenizer.buildRecords_ok lines h (start_addr + 2)
    exact ⟨[start_addr % 256, start_addr / 256] ++
        (BasicTokenizer.patchLinks recs).flatten,
      by simp only [BasicTokenizer.basic_to_prg, packU16, if_pos haddr, hrecs]⟩
  · intro h
    obtain ⟨recs, hrecs⟩ := BuildAndDeploy.buildRecords_ok_bd lines h
    exact ⟨[start_addr % 256, start_addr / 256] ++
        (BuildAndDeploy.patchLinks recs (start_addr + 2)).flatten,
      by simp only [BuildAndDeploy.basic_to_prg, packU16, if_pos haddr, hrecs]⟩

/-- Witness for C2's amended theorem at the single line `10 A` and base
0x0801. -/
theorem C2_total_witness :
    (∃ buf, BasicTokenizer.basic_to_prg [[49, 48, 32, 65]] 2049 = .ok buf) ∧
    (∃ buf, BuildAndDeploy.basic_to_prg [[49, 48, 32, 65]] 2049 = .ok buf) :=
  ⟨(C2_total_for_16bit_line_numbers [[49, 48, 32, 65]] 2049 (by decide)).1
      (by decide),
   (C2_total_for_16bit_line_numbers [[49, 48, 32, 65]] 2049 (by decide)).2
      (by decide)⟩

/-! ## Lines without keyword matches pass through raw (C9) -/

theorem List.getD_eq_getElem_of_lt {l : List Nat} {i : Nat} (h : i < l.length) :
    l.getD i 0 = l[i] := by
  rw [List.getD_eq_getElem?_getD, List.getElem?_eq_getElem h]
  rfl

theorem BasicTokenizer.scanAux_raw (content : List Nat)
    (hkw : ∀ i < content.length, ∀ kv ∈ sortedTokens,
      startsWithUpper (content.drop i) kv.1 = false) :
    ∀ fuel i inStr inRem, content.length - i ≤ fuel →
      scanAux content fuel i inStr inRem = (content.drop i).map rawCode := by
  intro fuel
  induction fuel with
  | zero =>
    intro i inStr inRem hf
    rw [List.drop_eq_nil_of_le (by omega)]
    rfl
  | succ fuel ih =>
    intro i inStr inRem hf
    by_cases hi : i < content.length
    · have hc : content.getD i 0 = content[i] := List.getD_eq_getElem_of_lt hi
      have hdrop : content.drop i = content[i] :: content.drop (i + 1) :=
        List.drop_eq_getElem_cons hi
      simp only [scanAux, if_pos hi]
      by_cases hq : content.getD i 0 = 34
      · rw [if_pos hq, ih (i + 1) (!inStr) inRem (by omega), hdrop, List.map_cons]
        have h34 : rawCode content[i] = 34 := by
          rw [← hc, hq]; rfl
        rw [h34]
      · rw [if_neg hq]
        have hnone : findMatch content i = none := by
          rw [findMatch, List.find?_eq_none]
          intro kv hkv hmat
          have := (Bool.and_eq_true _ _).mp hmat
          rw [hkw i hi kv hkv] at this
          exact Bool.false_ne_true this.1
        by_cases hs : (inStr || inRem) = true
        · rw [if_pos hs, ih (i + 1) inStr inRem (by omega), hdrop, List.map_cons,
            hc]
        · rw [if_neg hs, hnone]
          dsimp only
          rw [ih (i + 1) inStr inRem (by omega), hdrop, List.map_cons, hc]
    · simp only [scanAux, if_neg hi]
      rw [List.drop_eq_nil_of_le (by omega)]
      rfl

theorem BuildAndDeploy.scanAux_raw_bd (content : List Nat)
    (hkw : ∀ i < content.length, ∀ kv ∈ sortedTokens,
      startsWithUpper (content.drop i) kv.1 = false) :
    ∀ fuel i inStr, content.length - i ≤ fuel →
      scanAux content fuel i inStr = (content.drop i).map rawCode := by
  intro fuel
  induction fuel with
  | zero =>
    intro i inStr hf
    rw [List.drop_eq_nil_of_le (by omega)]
    rfl
  | succ fuel ih =>
    intro i inStr hf
    by_cases hi : i < content.length
    · have hc : content.getD i 0 = content[i] := List.getD_eq_getElem_of_lt hi
      have hdrop : content.drop i = content[i] :: content.drop (i + 1) :=
        List.drop_eq_getElem_cons hi
      simp only [scanAux, if_pos hi]
      by_cases hq : content.getD i 0 = 34
      · rw [if_pos hq, ih (i + 1) (!inStr) (by omega), hdrop, List.map_cons]
        have h34 : rawCode content[i] = 34 := by
          rw [← hc, hq]; rfl
        rw [h34]
      · rw [if_neg hq]
        have hnone : findMatch content i = none := by
          rw [findMatch, List.find?_eq_none]
          intro kv hkv hmat
          have := (Bool.and_eq_true _ _).mp hmat
          rw [hkw i hi kv hkv] at this
          exact Bool.false_ne_true this.1
        by_cases hs : inStr = true
        · rw [if_pos hs, ih (i + 1) inStr (by omega), hdrop, List.map_cons, hc]
        · rw [if_neg hs, hnone]
          dsimp only
          rw [ih (i + 1) inStr (by omega), hdrop, List.map_cons, hc]
    · simp only [scanAux, if_neg hi]
      rw [List.drop_eq_nil_of_le (by omega)]
      rfl

/-- C9: on a line whose content has only characters below 128 and no
position where any table spelling prefix-matches (case-insensitively),
both tokenizers emit exactly the raw character codes of the content. -/
theorem C9_raw_roundtrip (content : List Nat)
    (hchar : ∀ c ∈ content, c < 128)
    (hkw : ∀ i < content.length, ∀ kv ∈ sortedTokens,
      startsWithUpper (content.drop i) kv.1 = false) :
    BasicTokenizer.scan content 0 false false = content ∧
    BuildAndDeploy.scan content 0 false = content := by
  have hmap : content.map rawCode = content := by
    have : ∀ c ∈ content, rawCode c = c := fun c hc => if_pos (hchar c hc)
    exact (List.map_congr_left this).trans (List.map_id content)
  constructor
  · rw [BasicTokenizer.scan,
      BasicTokenizer.scanAux_raw content hkw (content.length - 0) 0 false false
        (by omega)]
    simpa using hmap
  · rw [BuildAndDeploy.scan,
      BuildAndDeploy.scanAux_raw_bd content hkw (content.length - 0) 0 false
        (by omega)]
    simpa using hmap

/-- Witness for C9 at the content `!?` (codes 33, 63). -/
theorem C9_raw_witness :
    BasicTokenizer.scan [33, 63] 0 false false = [33, 63] ∧
    BuildAndDeploy.scan [33, 63] 0 false = [33, 63] :=
  C9_raw_roundtrip [33, 63] (by decide) (by decide)

/-! ## REM verbatim mode in basic_tokenizer (C6) -/

theorem BasicTokenizer.scanAux_verbatim (content : List Nat) :
    ∀ fuel i inStr, content.length - i ≤ fuel →
      scanAux content fuel i inStr true = (content.drop i).map rawCode := by
  intro fuel
  induction fuel with
  | zero =>
    intro i inStr hf
    rw [List.drop_eq_nil_of_le (by omega)]
    rfl
  | succ fuel ih =>
    intro i inStr hf
    by_cases hi : i < content.length
    · have hc : content.getD i 0 = content[i] := List.getD_eq_getElem_of_lt hi
      have hdrop : content.drop i = content[i] :: content.drop (i + 1) :=
        List.drop_eq_getElem_cons hi
      simp only [scanAux, if_pos hi]
      by_cases hq : content.getD i 0 = 34
      · rw [if_pos hq, ih (i + 1) (!inStr) (by omega), hdrop, List.map_cons]
        have h34 : rawCode content[i] = 34 := by
          rw [← hc, hq]; rfl
        rw [h34]
      · rw [if_neg hq, if_pos (by rw [Bool.or_true] : (inStr || true) = true),
          ih (i + 1) inStr (by omega), hdrop, List.map_cons, hc]
    · simp only [scanAux, if_neg hi]
      rw [List.drop_eq_nil_of_le (by omega)]
      rfl

/-- C6 (amended, the half that holds): in `basic_tokenizer`, when the
keyword search at a scan position returns `REM`, the scanner emits the
`REM` byte code and then every remaining character of the line as its
raw code (codes ≥ 128 become `?`), so no further keyword codes appear.
The other half fails: `build_and_deploy.tokenize_line` has no verbatim
mode (see the counterexample). -/
theorem C6_rem_verbatim (content : List Nat) (i code : Nat)
    (hi : i < content.length) (hq : content.getD i 0 ≠ 34)
    (hm : BasicTokenizer.findMatch content i = some (remK, code)) :
    BasicTokenizer.scan content i false false =
      code :: (content.drop (i + 3)).map rawCode := by
  rw [BasicTokenizer.scan_eq, if_pos hi]
  rw [if_neg hq, if_neg (by decide : ¬((false || false) = true)), hm]
  dsimp only
  have hbeq : (remK == remK) = true := by decide
  rw [hbeq, Bool.or_true]
  show code :: BasicTokenizer.scan content (i + 3) false true = _
  rw [BasicTokenizer.scan]
  rw [BasicTokenizer.scanAux_verbatim content (content.length - (i + 3)) (i + 3)
    false (Nat.le_refl _)]

/-- Witness for C6's amended theorem at the content `REM X`. -/
theorem C6_rem_witness :
    BasicTokenizer.scan [82, 69, 77, 32, 88] 0 false false =
      143 :: (List.drop (0 + 3) [82, 69, 77, 32, 88]).map rawCode :=
  C6_rem_verbatim [82, 69, 77, 32, 88] 0 143 (by decide) (by decide) rfl

/-! ## File-number keyword matching (C7) -/

theorem startsWithUpper_head {s : List Nat} {a : Nat} {kw : List Nat}
    (h : startsWithUpper s (a :: kw) = true) :
    ∃ t, s.flatMap pyUpperChar = a :: t := by
  rw [startsWithUpper, List.isPrefixOf_iff_prefix] at h
  obtain ⟨t, ht⟩ := h
  exact ⟨kw ++ t, by rw [← ht, List.cons_append]⟩

theorem startsWithUpper_head_eq {s : List Nat} {a b : Nat} {kw1 kw2 : List Nat}
    (h1 : startsWithUpper s (a :: kw1) = true)
    (h2 : startsWithUpper s (b :: kw2) = true) : a = b := by
  obtain ⟨t1, e1⟩ := startsWithUpper_head h1
  obtain ⟨t2, e2⟩ := startsWithUpper_head h2
  rw [e1, List.cons.injEq] at e2
  exact e2.1

/-- Skipping one table entry in the keyword search of
`basic_tokenizer` when its first letter differs from the letter the
text demands. -/
theorem BasicTokenizer.find?_skip_head {content : List Nat} {i a : Nat}
    {kw2 : List Nat} (h : startsWithUpper (content.drop i) (a :: kw2) = true)
    (b : Nat) (kw : List Nat) (code : Nat) (hne : b ≠ a)
    (l : List (List Nat × Nat)) :
    List.find? (fun kv => matchesAt content i kv.1) ((b :: kw, code) :: l) =
      List.find? (fun kv => matchesAt content i kv.1) l := by
  apply List.find?_cons_of_neg
  intro hx
  have hx' : matchesAt content i (b :: kw) = true := hx
  rw [matchesAt] at hx'
  exact absurd (startsWithUpper_head_eq ((Bool.and_eq_true _ _).mp hx').1 h) hne

/-- Skipping one table entry in the keyword search of
`build_and_deploy` when its first letter differs from the letter the
text demands. -/
theorem BuildAndDeploy.find?_skip_head_bd {content : List Nat} {i a : Nat}
    {kw2 : List Nat} (h : startsWithUpper (content.drop i) (a :: kw2) = true)
    (b : Nat) (kw : List Nat) (code : Nat) (hne : b ≠ a)
    (l : List (List Nat × Nat)) :
    List.find? (fun kv => matchesAt content i kv.1) ((b :: kw, code) :: l) =
      List.find? (fun kv => matchesAt content i kv.1) l := by
  apply List.find?_cons_of_neg
  intro hx
  have hx' : matchesAt content i (b :: kw) = true := hx
  rw [matchesAt] at hx'
  exact absurd (startsWithUpper_head_eq ((Bool.and_eq_true _ _).mp hx').1 h) hne

/-- C7 (amended): in `basic_tokenizer`, `PRINT#`/`INPUT#` win the
keyword search whenever the remaining text starts with their spelling
case-insensitively, with no condition on the character after the `#`;
in `build_and_deploy` they additionally require the next character to
exist and be a digit (the failure without the digit is the
counterexample). -/
theorem C7_file_keyword_match :
    (∀ content i, startsWithUpper (content.drop i) printHashK = true →
      BasicTokenizer.findMatch content i = some (printHashK, 152)) ∧
    (∀ content i, startsWithUpper (content.drop i) inputHashK = true →
      BasicTokenizer.findMatch content i = some (inputHashK, 132)) ∧
    (∀ content i, startsWithUpper (content.drop i) printHashK = true →
      i + 6 < content.length → pyIsDigit (content.getD (i + 6) 0) = true →
      BuildAndDeploy.findMatch content i = some (printHashK, 152)) ∧
    (∀ content i, startsWithUpper (content.drop i) inputHashK = true →
      i + 6 < content.length → pyIsDigit (content.getD (i + 6) 0) = true →
      BuildAndDeploy.findMatch content i = some (inputHashK, 132)) := by
  refine ⟨?_, ?_, ?_, ?_⟩
  · intro content i h
    simp only [printHashK] at h ⊢
    have hpos : BasicTokenizer.matchesAt content i [80, 82, 73, 78, 84, 35] = true := by
      rw [BasicTokenizer.matchesAt, h, Bool.true_and, if_neg (by decide),
        if_pos (by decide)]
    rw [BasicTokenizer.findMatch, sortedTokens,
      BasicTokenizer.find?_skip_head h 82 _ 140 (by decide),
      BasicTokenizer.find?_skip_head h 73 _ 132 (by decide),
      BasicTokenizer.find?_skip_head h 82 _ 142 (by decide),
      BasicTokenizer.find?_skip_head h 86 _ 149 (by decide)]
    exact List.find?_cons_of_pos _ hpos
  · intro content i h
    simp only [inputHashK] at h ⊢
    have hpos : BasicTokenizer.matchesAt content i [73, 78, 80, 85, 84, 35] = true := by
      rw [BasicTokenizer.matchesAt, h, Bool.true_and, if_neg (by decide),
        if_pos (by decide)]
    rw [BasicTokenizer.findMatch, sortedTokens,
      BasicTokenizer.find?_skip_head h 82 _ 140 (by decide)]
    exact List.find?_cons_of_pos _ hpos
  · intro content i h hii hd
    simp only [printHashK] at h ⊢
    have hpos : BuildAndDeploy.matchesAt content i [80, 82, 73, 78, 84, 35] = true := by
      rw [BuildAndDeploy.matchesAt, h, Bool.true_and, if_neg (by decide),
        if_pos (by decide)]
      show (decide (i + 6 < content.length) && pyIsDigit (content.getD (i + 6) 0)) = true
      rw [decide_eq_true hii, hd]
      rfl
    rw [BuildAndDeploy.findMatch, sortedTokens,
      BuildAndDeploy.find?_skip_head_bd h 82 _ 140 (by decide),
      BuildAndDeploy.find?_skip_head_bd h 73 _ 132 (by decide),
      BuildAndDeploy.find?_skip_head_bd h 82 _ 142 (by decide),
      BuildAndDeploy.find?_skip_head_bd h 86 _ 149 (by decide)]
    exact List.find?_cons_of_pos _ hpos
  · intro content i h hii hd
    simp only [inputHashK] at h ⊢
    have hpos : BuildAndDeploy.matchesAt content i [73, 78, 80, 85, 84, 35] = true := by
      rw [BuildAndDeploy.matchesAt, h, Bool.true_and, if_neg (by decide),
        if_pos (by decide)]
      show (decide (i + 6 < content.length) && pyIsDigit (content.getD (i + 6) 0)) = true
      rw [decide_eq_true hii, hd]
      rfl
    rw [BuildAndDeploy.findMatch, sortedTokens,
      BuildAndDeploy.find?_skip_head_bd h 82 _ 140 (by decide)]
    exact List.find?_cons_of_pos _ hpos

/-- Witness for C7's amended theorem: `PRINT#` at position 0 of the
contents `PRINT#` (basic_tokenizer) and `PRINT#1` (build_and_deploy). -/
theorem C7_file_keyword_witness :
    BasicTokenizer.findMatch [80, 82, 73, 78, 84, 35] 0 = some (printHashK, 152) ∧
    BuildAndDeploy.findMatch [80, 82, 73, 78, 84, 35, 49] 0 = some (printHashK, 152) :=
  ⟨C7_file_keyword_match.1 [80, 82, 73, 78, 84, 35] 0 (by decide),
   C7_file_keyword_match.2.2.1 [80, 82, 73, 78, 84, 35, 49] 0 (by decide)
     (by decide) (by decide)⟩

/-! ## Word-boundary conditions for ordinary keywords (C5) -/

theorem boundaryBefore_spec {content : List Nat} {i : Nat}
    (h : boundaryBefore content i = true) :
    i = 0 ∨ pyIsAlnum (content.getD (i - 1) 0) = false := by
  rw [boundaryBefore] at h
  rcases (Bool.or_eq_true _ _).mp h with h1 | h1
  · exact Or.inl (of_decide_eq_true h1)
  · right
    cases hv : pyIsAlnum (content.getD (i - 1) 0) with
    | false => rfl
    | true => rw [hv] at h1; exact absurd h1 (by decide)

theorem boundaryAfter_spec {content : List Nat} {i n : Nat}
    (h : boundaryAfter content i n = true) :
    content.length ≤ i + n ∨ pyIsAlnum (content.getD (i + n) 0) = false := by
  rw [boundaryAfter] at h
  rcases (Bool.or_eq_true _ _).mp h with h1 | h1
  · exact Or.inl (of_decide_eq_true h1)
  · right
    cases hv : pyIsAlnum (content.getD (i + n) 0) with
    | false => rfl
    | true => rw [hv] at h1; exact absurd h1 (by decide)

/-- C5 (amended): in `build_and_deploy`, an ordinary multi-character
keyword other than `LOAD`/`SAVE`/`VERIFY` is matched only between
non-alphanumeric (or absent) neighbours; `LOAD`/`SAVE`/`VERIFY` check
only the preceding character there.  In `basic_tokenizer` only the
trailing boundary is required (the missing preceding check is the
counterexample: `OR` matches inside `XOR`). -/
theorem C5_boundary_conditions :
    (∀ content i kv, BuildAndDeploy.findMatch content i = some kv →
      1 < kv.1.length → kv.1 ≠ printHashK → kv.1 ≠ inputHashK →
      kv.1 ≠ loadK → kv.1 ≠ saveK → kv.1 ≠ verifyK →
      (i = 0 ∨ pyIsAlnum (content.getD (i - 1) 0) = false) ∧
      (content.length ≤ i + kv.1.length ∨
        pyIsAlnum (content.getD (i + kv.1.length) 0) = false)) ∧
    (∀ content i kv, BasicTokenizer.findMatch content i = some kv →
      1 < kv.1.length → kv.1 ≠ printHashK → kv.1 ≠ inputHashK →
      content.length ≤ i + kv.1.length ∨
        pyIsAlnum (content.getD (i + kv.1.length) 0) = false) := by
  constructor
  · intro content i kv hm hlen hp1 hp2 hl1 hl2 hl3
    rw [BuildAndDeploy.findMatch] at hm
    have hp0 := List.find?_some hm
    have hp : BuildAndDeploy.matchesAt content i kv.1 = true := hp0
    rw [BuildAndDeploy.matchesAt] at hp
    have hcond := ((Bool.and_eq_true _ _).mp hp).2
    rw [if_neg (fun hh => by have := eq_of_beq hh; omega)] at hcond
    rw [if_neg (fun hh => by
      rcases (Bool.or_eq_true _ _).mp hh with h1 | h1
      · exact hp1 (eq_of_beq h1)
      · exact hp2 (eq_of_beq h1))] at hcond
    rw [if_neg (fun hh => by
      rcases (Bool.or_eq_true _ _).mp hh with h1 | h1
      · rcases (Bool.or_eq_true _ _).mp h1 with h2 | h2
        · exact hl1 (eq_of_beq h2)
        · exact hl2 (eq_of_beq h2)
      · exact hl3 (eq_of_beq h1))] at hcond
    have hboth := (Bool.and_eq_true _ _).mp hcond
    exact ⟨boundaryBefore_spec hboth.1, boundaryAfter_spec hboth.2⟩
  · intro content i kv hm hlen hp1 hp2
    rw [BasicTokenizer.findMatch] at hm
    have hp0 := List.find?_some hm
    have hp : BasicTokenizer.matchesAt content i kv.1 = true := hp0
    rw [BasicTokenizer.matchesAt] at hp
    have hcond := ((Bool.and_eq_true _ _).mp hp).2
    rw [if_neg (fun hh => by
      have := eq_of_beq ((Bool.and_eq_true _ _).mp hh).1
      omega)] at hcond
    rw [if_neg (fun hh => by
      rcases (Bool.or_eq_true _ _).mp hh with h1 | h1
      · exact hp1 (eq_of_beq h1)
      · exact hp2 (eq_of_beq h1))] at hcond
    rw [if_pos hlen] at hcond
    exact boundaryAfter_spec hcond

/-- Witness for C5's amended theorem: `TO` matched at position 2 of the
content `A TO B`. -/
theorem C5_boundary_witness :
    ((2 = 0 ∨ pyIsAlnum (List.getD [65, 32, 84, 79, 32, 66] (2 - 1) 0) = false) ∧
      (List.length [65, 32, 84, 79, 32, 66] ≤ 2 + ([84, 79] : List Nat).length ∨
        pyIsAlnum
          (List.getD [65, 32, 84, 79, 32, 66] (2 + ([84, 79] : List Nat).length) 0) =
          false)) ∧
    (List.length [65, 32, 84, 79, 32, 66] ≤ 2 + ([84, 79] : List Nat).length ∨
      pyIsAlnum
        (List.getD [65, 32, 84, 79, 32, 66] (2 + ([84, 79] : List Nat).length) 0) =
        false) :=
  ⟨C5_boundary_conditions.1 [65, 32, 84, 79, 32, 66] 2 ([84, 79], 164) rfl
      (by decide) (by decide) (by decide) (by decide) (by decide) (by decide),
   C5_boundary_conditions.2 [65, 32, 84, 79, 32, 66] 2 ([84, 79], 164) rfl
      (by decide) (by decide) (by decide)⟩

/-! ## Which lines are dropped (C8) -/

/-- C8 (amended): `basic_tokenizer` yields no record exactly for lines
that strip to nothing or whose first stripped character is not an
ASCII digit — a digits-only line still yields a record with an empty
token list (the counterexample).  `build_and_deploy` additionally
drops every line whose digit prefix is not followed by whitespace,
digits-only lines included.  Every other line yields exactly one
record. -/
theorem C8_dropped_lines (line : List Nat) :
    (BasicTokenizer.tokenize_basic_line line = none ↔
      pyStrip line = [] ∨ isDigitAscii ((pyStrip line).headD 0) = false) ∧
    (BuildAndDeploy.tokenize_line line = none ↔
      pyStrip line = [] ∨ isDigitAscii ((pyStrip line).headD 0) = false ∨
      (pyStrip line).dropWhile isDigitAscii = [] ∨
      pyIsSpace (((pyStrip line).dropWhile isDigitAscii).headD 0) = false) := by
  constructor
  · rw [BasicTokenizer.tokenize_basic_line, BasicTokenizer.parseLine]
    cases hs : pyStrip line with
    | nil => simp
    | cons c rest =>
      dsimp only
      by_cases hd : isDigitAscii c = true
      · rw [if_pos hd]
        simp [hd]
      · rw [if_neg hd]
        simp [Bool.not_eq_true _ ▸ hd]
  · rw [BuildAndDeploy.tokenize_line, BuildAndDeploy.parseLine]
    cases hs : pyStrip line with
    | nil => simp
    | cons c rest =>
      dsimp only
      by_cases hd : isDigitAscii c = true
      · rw [if_pos hd]
        cases hdw : (c :: rest).dropWhile isDigitAscii with
        | nil => simp [hd, hdw]
        | cons d rest2 =>
          dsimp only
          by_cases hsp : pyIsSpace d = true
          · rw [if_pos hsp]
            simp [hd, hdw, hsp]
          · rw [if_neg hsp]
            simp [hd, hdw, Bool.not_eq_true _ ▸ hsp]
      · rw [if_neg hd]
        simp [Bool.not_eq_true _ ▸ hd]

/-! ## Link chain (C1) -/

theorem linkVal_setLink (d : List Nat) (a : Nat) :
    linkVal (BasicTokenizer.setLink d a) = a % 65536 := by
  show a % 256 + 256 * (a / 256 % 256) = a % 65536
  omega

theorem BasicTokenizer.buildRecords_addr (ls : List (List Nat)) :
    ∀ a recs, buildRecords ls a = .ok recs →
      ∀ k, k < recs.length →
        (recs.getD k (0, [])).1 =
          a + ((recs.take k).map fun p => p.2.length).sum := by
  induction ls with
  | nil =>
    intro a recs h k hk
    injection h with h
    subst h
    simp at hk
  | cons l ls ih =>
    intro a recs h k hk
    simp only [buildRecords] at h
    by_cases hstrip : pyStrip (rstripCRLF l) = []
    · rw [if_pos hstrip] at h
      exact ih a recs h k hk
    · rw [if_neg hstrip] at h
      cases ht : tokenize_basic_line (rstripCRLF l) with
      | none =>
        rw [ht] at h
        exact ih a recs h k hk
      | some p =>
        obtain ⟨n, toks⟩ := p
        rw [ht] at h
        dsimp only at h
        cases hpk : packU16 n with
        | error e => rw [hpk] at h; exact absurd h (by simp)
        | ok nb =>
          rw [hpk] at h
          dsimp only at h
          cases hrec : buildRecords ls (a + ([0, 0] ++ nb ++ toks ++ [0]).length) with
          | error e => rw [hrec] at h; exact absurd h (by simp)
          | ok rest =>
            rw [hrec] at h
            dsimp only at h
            injection h with h
            subst h
            cases k with
            | zero => simp
            | succ k =>
              have hk2 : k < rest.length := by
                simpa using hk
              have := ih (a + ([0, 0] ++ nb ++ toks ++ [0]).length) rest hrec k hk2
              simp only [List.getD_cons_succ, List.take_succ_cons, List.map_cons,
                List.sum_cons, this]
              omega

theorem BasicTokenizer.patchLinks_link : ∀ recs k, k + 1 < recs.length →
    linkVal ((patchLinks recs).getD k []) =
      (recs.getD (k + 1) (0, [])).1 % 65536 := by
  intro recs
  induction recs with
  | nil => intro k hk; simp at hk
  | cons x rest ih =>
    cases rest with
    | nil => intro k hk; simp at hk
    | cons y rest2 =>
      obtain ⟨a1, d1⟩ := x
      obtain ⟨a2, d2⟩ := y
      intro k hk
      cases k with
      | zero =>
        simp only [patchLinks, List.getD_cons_zero, List.getD_cons_succ]
        exact linkVal_setLink d1 a2
      | succ k =>
        simp only [patchLinks, List.getD_cons_succ]
        exact ih k (by simpa using hk)

theorem BasicTokenizer.patchLinks_last : ∀ recs, recs ≠ [] →
    linkVal ((patchLinks recs).getD (recs.length - 1) []) = 0 := by
  intro recs
  induction recs with
  | nil => intro h; exact absurd rfl h
  | cons x rest ih =>
    cases rest with
    | nil =>
      intro _
      obtain ⟨a, d⟩ := x
      show linkVal (setLink d 0) = 0
      rw [linkVal_setLink]
    | cons y rest2 =>
      intro _
      obtain ⟨a1, d1⟩ := x
      obtain ⟨a2, d2⟩ := y
      have hlen : ((a1, d1) :: (a2, d2) :: rest2).length - 1 =
          (((a2, d2) :: rest2).length - 1) + 1 := by
        simp
      rw [hlen]
      simp only [patchLinks, List.getD_cons_succ]
      exact ih (by simp)

theorem BuildAndDeploy.patchLinks_link_bd : ∀ recs addr k, k + 1 < recs.length →
    linkVal ((patchLinks recs addr).getD k []) =
      (addr + ((recs.take (k + 1)).map List.length).sum) % 65536 := by
  intro recs
  induction recs with
  | nil => intro addr k hk; simp at hk
  | cons d rest ih =>
    cases rest with
    | nil => intro addr k hk; simp at hk
    | cons e rest2 =>
      intro addr k hk
      cases k with
      | zero =>
        simp only [patchLinks, List.getD_cons_zero, List.take_succ_cons,
          List.take_zero, List.map_cons, List.map_nil, List.sum_cons,
          List.sum_nil]
        rw [linkVal_setLink]
        omega
      | succ k =>
        simp only [patchLinks, List.getD_cons_succ]
        rw [ih (addr + d.length) k (by simpa using hk)]
        have : addr + d.length + (((e :: rest2).take (k + 1)).map List.length).sum =
            addr + (((d :: e :: rest2).take (k + 1 + 1)).map List.length).sum := by
          simp only [List.take_succ_cons, List.map_cons, List.sum_cons]
          omega
        rw [this]

theorem BuildAndDeploy.patchLinks_last_bd : ∀ recs, recs ≠ [] → ∀ addr,
    linkVal ((patchLinks recs addr).getD (recs.length - 1) []) = 0 := by
  intro recs
  induction recs with
  | nil => intro h; exact absurd rfl h
  | cons d rest ih =>
    cases rest with
    | nil =>
      intro _ addr
      show linkVal (BasicTokenizer.setLink d 0) = 0
      rw [linkVal_setLink]
    | cons e rest2 =>
      intro _ addr
      have hlen : (d :: e :: rest2).length - 1 =
          ((e :: rest2).length - 1) + 1 := by
        simp
      rw [hlen]
      simp only [patchLinks, List.getD_cons_succ]
      exact ih (by simp) (addr + d.length)

/-- C1 (amended): the first record sits at `base + 2` and each record's
stored address is the base plus the lengths of all earlier records;
every non-final record's patched link field holds the absolute address
of the immediately following record reduced modulo 65536 (the code
masks the two patched bytes), and the final record's link field is
zero.  The link equals the address itself only while it is below
65536 (the counterexample exceeds it). -/
theorem C1_link_chain (lines : List (List Nat)) (base : Nat) :
    (∀ recs, BasicTokenizer.buildRecords lines (base + 2) = .ok recs →
      (∀ k, k < recs.length →
        (recs.getD k (0, [])).1 =
          base + 2 + ((recs.take k).map fun p => p.2.length).sum) ∧
      (∀ k, k + 1 < recs.length →
        linkVal ((BasicTokenizer.patchLinks recs).getD k []) =
          (recs.getD (k + 1) (0, [])).1 % 65536) ∧
      (recs ≠ [] →
        linkVal ((BasicTokenizer.patchLinks recs).getD (recs.length - 1) []) = 0)) ∧
    (∀ recs, BuildAndDeploy.buildRecords lines = .ok recs →
      (∀ k, k + 1 < recs.length →
        linkVal ((BuildAndDeploy.patchLinks recs (base + 2)).getD k []) =
          (base + 2 + ((recs.take (k + 1)).map List.length).sum) % 65536) ∧
      (recs ≠ [] →
        linkVal
          ((BuildAndDeploy.patchLinks recs (base + 2)).getD (recs.length - 1) []) =
          0)) := by
  constructor
  · intro recs h
    exact ⟨BasicTokenizer.buildRecords_addr lines (base + 2) recs h,
      fun k hk => BasicTokenizer.patchLinks_link recs k hk,
      fun hne => BasicTokenizer.patchLinks_last recs hne⟩
  · intro recs _
    exact ⟨fun k hk => BuildAndDeploy.patchLinks_link_bd recs (base + 2) k hk,
      fun hne => BuildAndDeploy.patchLinks_last_bd recs hne (base + 2)⟩

/-- Witness for C1's amended theorem: two lines `10 A`, `20 B` at base
0x0801; the first record's link is 2057 mod 65536 and the second's is
zero. -/
theorem C1_link_chain_witness :
    linkVal
        ((BasicTokenizer.patchLinks
            [(2051, [0, 0, 10, 0, 65, 0]), (2057, [0, 0, 20, 0, 66, 0])]).getD 0 []) =
      (([(2051, [0, 0, 10, 0, 65, 0]),
          (2057, [0, 0, 20, 0, 66, 0])].getD 1 ((0 : Nat), ([] : List Nat))).1) %
        65536 ∧
    linkVal
        ((BasicTokenizer.patchLinks
            [(2051, [0, 0, 10, 0, 65, 0]), (2057, [0, 0, 20, 0, 66, 0])]).getD
          ([(2051, [0, 0, 10, 0, 65, 0]), (2057, [0, 0, 20, 0, 66, 0])].length - 1)
          []) = 0 :=
  ⟨((C1_link_chain [[49, 48, 32, 65], [50, 48, 32, 66]] 2049).1
      [(2051, [0, 0, 10, 0, 65, 0]), (2057, [0, 0, 20, 0, 66, 0])] rfl).2.1 0
      (by decide),
   ((C1_link_chain [[49, 48, 32, 65], [50, 48, 32, 66]] 2049).1
      [(2051, [0, 0, 10, 0, 65, 0]), (2057, [0, 0, 20, 0, 66, 0])] rfl).2.2
      (by decide)⟩

/-! ## Total buffer length (C10) -/

theorem packU16_ok_length {x : Nat} {nb : List Nat}
    (h : packU16 x = .ok nb) : nb.length = 2 := by
  rw [packU16] at h
  by_cases hx : x ≤ 65535
  · rw [if_pos hx] at h
    injection h with h
    rw [← h]
    rfl
  · rw [if_neg hx] at h
    exact absurd h (by simp)

theorem BasicTokenizer.tokenize_none_of_strip_nil {l : List Nat}
    (h : pyStrip l = []) : tokenize_basic_line l = none := by
  rw [tokenize_basic_line, parseLine, h]

theorem setLink_length {d : List Nat} (a : Nat) (h : 2 ≤ d.length) :
    (BasicTokenizer.setLink d a).length = d.length := by
  rw [BasicTokenizer.setLink]
  simp only [List.length_cons, List.length_drop]
  omega

theorem BasicTokenizer.buildRecords_datalen (ls : List (List Nat)) :
    ∀ a recs, buildRecords ls a = .ok recs → ∀ p ∈ recs, 2 ≤ p.2.length := by
  induction ls with
  | nil =>
    intro a recs h
    injection h with h
    subst h
    intro p hp
    simp at hp
  | cons l ls ih =>
    intro a recs h
    simp only [buildRecords] at h
    by_cases hstrip : pyStrip (rstripCRLF l) = []
    · rw [if_pos hstrip] at h
      exact ih a recs h
    · rw [if_neg hstrip] at h
      cases ht : tokenize_basic_line (rstripCRLF l) with
      | none =>
        rw [ht] at h
        exact ih a recs h
      | some p =>
        obtain ⟨n, toks⟩ := p
        rw [ht] at h
        dsimp only at h
        cases hpk : packU16 n with
        | error e => rw [hpk] at h; exact absurd h (by simp)
        | ok nb =>
          rw [hpk] at h
          dsimp only at h
          cases hrec : buildRecords ls (a + ([0, 0] ++ nb ++ toks ++ [0]).length) with
          | error e => rw [hrec] at h; exact absurd h (by simp)
          | ok rest =>
            rw [hrec] at h
            dsimp only at h
            injection h with h
            subst h
            intro p hp
            rcases List.mem_cons.mp hp with hp | hp
            · subst hp
              simp
            · exact ih _ rest hrec p hp

theorem BasicTokenizer.buildRecords_lengths (ls : List (List Nat)) :
    ∀ a recs, buildRecords ls a = .ok recs →
      recs.map (fun p => p.2.length) =
        (ls.filterMap fun l => tokenize_basic_line (rstripCRLF l)).map
          (fun p => 5 + p.2.length) := by
  induction ls with
  | nil =>
    intro a recs h
    injection h with h
    subst h
    rfl
  | cons l ls ih =>
    intro a recs h
    simp only [buildRecords] at h
    simp only [List.filterMap_cons]
    by_cases hstrip : pyStrip (rstripCRLF l) = []
    · rw [if_pos hstrip] at h
      rw [BasicTokenizer.tokenize_none_of_strip_nil hstrip]
      exact ih a recs h
    · rw [if_neg hstrip] at h
      cases ht : tokenize_basic_line (rstripCRLF l) with
      | none =>
        rw [ht] at h
        exact ih a recs h
      | some p =>
        obtain ⟨n, toks⟩ := p
        rw [ht] at h
        dsimp only at h
        cases hpk : packU16 n with
        | error e => rw [hpk] at h; exact absurd h (by simp)
        | ok nb =>
          rw [hpk] at h
          dsimp only at h
          cases hrec : buildRecords ls (a + ([0, 0] ++ nb ++ toks ++ [0]).length) with
          | error e => rw [hrec] at h; exact absurd h (by simp)
          | ok rest =>
            rw [hrec] at h
            dsimp only at h
            injection h with h
            subst h
            simp only [List.map_cons]
            rw [List.cons.injEq]
            refine ⟨?_, ih _ rest hrec⟩
            have := packU16_ok_length hpk
            simp only [List.length_append, List.length_cons, List.length_nil,
              this]
            omega

theorem BasicTokenizer.patchLinks_flatten_length : ∀ recs : List (Nat × List Nat),
    (∀ p ∈ recs, 2 ≤ p.2.length) →
    ((patchLinks recs).flatten).length = (recs.map fun p => p.2.length).sum := by
  intro recs
  induction recs with
  | nil => intro _; rfl
  | cons x rest ih =>
    cases rest with
    | nil =>
      intro h
      obtain ⟨a, d⟩ := x
      have hd : 2 ≤ d.length := h (a, d) (by simp)
      simp only [patchLinks, List.flatten, List.map_cons, List.map_nil,
        List.sum_cons, List.sum_nil, List.length_append, List.length_nil,
        setLink_length 0 hd]
    | cons y rest2 =>
      intro h
      obtain ⟨a1, d1⟩ := x
      obtain ⟨a2, d2⟩ := y
      have hd : 2 ≤ d1.length := h (a1, d1) (by simp)
      have hrest := fun p hp => h p (List.mem_cons_of_mem _ hp)
      simp only [patchLinks] at ih ⊢
      rw [List.flatten_cons, List.length_append, setLink_length a2 hd,
        ih hrest, List.map_cons, List.sum_cons]
      simp only [List.map_cons, List.sum_cons]

theorem BuildAndDeploy.buildRecords_lengths_bd (ls : List (List Nat)) :
    ∀ recs, buildRecords ls = .ok recs →
      recs.map List.length =
        (ls.filterMap tokenize_line).map (fun p => 5 + p.2.length) := by
  induction ls with
  | nil =>
    intro recs h
    injection h with h
    subst h
    rfl
  | cons l ls ih =>
    intro recs h
    simp only [buildRecords] at h
    simp only [List.filterMap_cons]
    cases ht : tokenize_line l with
    | none =>
      rw [ht] at h
      exact ih recs h
    | some p =>
      obtain ⟨n, toks⟩ := p
      rw [ht] at h
      dsimp only at h
      cases hpk : packU16 n with
      | error e => rw [hpk] at h; exact absurd h (by simp)
      | ok nb =>
        rw [hpk] at h
        dsimp only at h
        cases hrec : buildRecords ls with
        | error e => rw [hrec] at h; exact absurd h (by simp)
        | ok rest =>
          rw [hrec] at h
          dsimp only at h
          injection h with h
          subst h
          simp only [List.map_cons]
          rw [List.cons.injEq]
          refine ⟨?_, ih rest hrec⟩
          have := packU16_ok_length hpk
          simp only [List.length_append, List.length_cons, List.length_nil,
            this]
          omega

theorem BuildAndDeploy.buildRecords_datalen_bd (ls : List (List Nat)) :
    ∀ recs, buildRecords ls = .ok recs → ∀ d ∈ recs, 2 ≤ d.length := by
  induction ls with
  | nil =>
    intro recs h
    injection h with h
    subst h
    intro d hd
    simp at hd
  | cons l ls ih =>
    intro recs h
    simp only [buildRecords] at h
    cases ht : tokenize_line l with
    | none =>
      rw [ht] at h
      exact ih recs h
    | some p =>
      obtain ⟨n, toks⟩ := p
      rw [ht] at h
      dsimp only at h
      cases hpk : packU16 n with
      | error e => rw [hpk] at h; exact absurd h (by simp)
      | ok nb =>
        rw [hpk] at h
        dsimp only at h
        cases hrec : buildRecords ls with
        | error e => rw [hrec] at h; exact absurd h (by simp)
        | ok rest =>
          rw [hrec] at h
          dsimp only at h
          injection h with h
          subst h
          intro d hd
          rcases List.mem_cons.mp hd with hd | hd
          · subst hd
            simp
          · exact ih rest hrec d hd

theorem BuildAndDeploy.patchLinks_flatten_length_bd : ∀ recs : List (List Nat),
    (∀ d ∈ recs, 2 ≤ d.length) → ∀ addr,
    ((patchLinks recs addr).flatten).length = (recs.map List.length).sum := by
  intro recs
  induction recs with
  | nil => intro _ addr; rfl
  | cons d rest ih =>
    cases rest with
    | nil =>
      intro h addr
      have hd : 2 ≤ d.length := h d (by simp)
      simp only [patchLinks, List.flatten, List.map_cons, List.map_nil,
        List.sum_cons, List.sum_nil, List.length_append, List.length_nil,
        setLink_length 0 hd]
    | cons e rest2 =>
      intro h addr
      have hd : 2 ≤ d.length := h d (by simp)
      have hrest := fun p hp => h p (List.mem_cons_of_mem _ hp)
      simp only [patchLinks] at ih ⊢
      rw [List.flatten_cons, List.length_append, setLink_length _ hd,
        ih hrest (addr + d.length), List.map_cons, List.sum_cons]
      simp only [List.map_cons, List.sum_cons]

/-- C10: every produced buffer is exactly 2 header bytes plus, per
accepted line, 5 + t bytes (2 link + 2 line-number + t token bytes +
1 terminator), in both implementations. -/
theorem C10_buffer_length (lines : List (List Nat)) (start_addr : Nat) :
    (∀ buf, BasicTokenizer.basic_to_prg lines start_addr = .ok buf →
      buf.length = 2 +
        (((lines.filterMap fun l =>
            BasicTokenizer.tokenize_basic_line (rstripCRLF l)).map
          fun p => 5 + p.2.length)).sum) ∧
    (∀ buf, BuildAndDeploy.basic_to_prg lines start_addr = .ok buf →
      buf.length = 2 +
        (((lines.filterMap BuildAndDeploy.tokenize_line).map
          fun p => 5 + p.2.length)).sum) := by
  constructor
  · intro buf h
    rw [BasicTokenizer.basic_to_prg] at h
    cases hpk : packU16 start_addr with
    | error e => rw [hpk] at h; exact absurd h (by simp)
    | ok header =>
      rw [hpk] at h
      dsimp only at h
      cases hrec : BasicTokenizer.buildRecords lines (start_addr + 2) with
      | error e => rw [hrec] at h; exact absurd h (by simp)
      | ok recs =>
        rw [hrec] at h
        dsimp only at h
        injection h with h
        subst h
        rw [List.length_append, packU16_ok_length hpk,
          BasicTokenizer.patchLinks_flatten_length recs
            (BasicTokenizer.buildRecords_datalen lines _ recs hrec),
          BasicTokenizer.buildRecords_lengths lines _ recs hrec]
  · intro buf h
    rw [BuildAndDeploy.basic_to_prg] at h
    cases hrec : BuildAndDeploy.buildRecords lines with
    | error e => rw [hrec] at h; exact absurd h (by simp)
    | ok recs =>
      rw [hrec] at h
      dsimp only at h
      cases hpk : packU16 start_addr with
      | error e => rw [hpk] at h; exact absurd h (by simp)
      | ok header =>
        rw [hpk] at h
        dsimp only at h
        injection h with h
        subst h
        rw [List.length_append, packU16_ok_length hpk,
          BuildAndDeploy.patchLinks_flatten_length_bd recs
            (BuildAndDeploy.buildRecords_datalen_bd lines recs hrec)
            (start_addr + 2),
          BuildAndDeploy.buildRecords_lengths_bd lines recs hrec]

/-- Witness for C10 at the single line `10 A` and base 0x0801. -/
theorem C10_buffer_length_witness :
    ([1, 8, 0, 0, 10, 0, 65, 0] : List Nat).length = 2 +
      ((([[49, 48, 32, 65]].filterMap fun l =>
          BasicTokenizer.tokenize_basic_line (rstripCRLF l)).map
        fun p => 5 + p.2.length)).sum :=
  (C10_buffer_length [[49, 48, 32, 65]] 2049).1 [1, 8, 0, 0, 10, 0, 65, 0] rfl
